import Mathlib

/-!
Verification of the portfolio valuation and aggregation engine of the
One Piece TCG Portfolio API (`main.py`).

Monetary amounts, prices and timestamps are modelled over `ℚ` / `ℤ`
(exact arithmetic in place of IEEE floats; epoch seconds in place of
`datetime` values).  Holdings and price snapshots keep exactly the fields
the engine reads (`catalog_id`, `quantity`, `purchase_price`, `currency`
for holdings; `catalog_id`, `currency`, `price`, `taken_at` for
snapshots); display-only schema fields (name, set, variant, …) never
enter any computation and are omitted.  The document store is modelled
as in-memory lists; a query `find(filter).sort("taken_at", -1).limit(n)`
becomes filtering, a stable descending insertion sort, and `List.take`.
-/

namespace TCG

/-- The `taken_at` field of a stored price snapshot: either a proper
`datetime` (always the case for documents written through the API), or a
string that parses as an ISO timestamp, or an unparseable value.  The
parseable cases carry their epoch-second value. -/
inductive TakenAt where
  | dt (epoch : ℤ)
  | isoStr (epoch : ℤ)
  | bad
deriving DecidableEq, Repr

/-- Epoch seconds recovered by `trends_timeseries` from a stored
`taken_at` value: `datetime.timestamp()` for datetimes,
`datetime.fromisoformat(str(ts)).timestamp()` for parseable strings,
and `None` (the snapshot is skipped) otherwise. -/
def epochOf : TakenAt → Option ℤ
  | .dt e => some e
  | .isoStr e => some e
  | .bad => none

/-- Sort key used by the store when ordering on `taken_at`.  Documents
written through the API always carry datetimes, so the `bad` case never
takes part in an ordered query; it is given an arbitrary key. -/
def sortKey : TakenAt → ℤ
  | .dt e => e
  | .isoStr e => e
  | .bad => 0

/-- A portfolio holding (`collectionitem` document), restricted to the
fields read by the analytics engine. -/
structure Holding where
  catalog_id : Option String
  quantity : ℤ
  purchase_price : ℚ
  currency : String
deriving DecidableEq, Repr

/-- A price snapshot (`pricesnapshot` document), restricted to the
fields read by the analytics engine. -/
structure Snapshot where
  catalog_id : String
  currency : String
  price : ℚ
  taken_at : TakenAt
deriving DecidableEq, Repr

/-- The static rate table `RATES` of `main.py` (base = EUR). -/
def RATES (code : String) : Option ℚ :=
  if code = "EUR" then some 1
  else if code = "USD" then some (108 / 100)
  else if code = "GBP" then some (86 / 100)
  else if code = "JPY" then some 162
  else if code = "BTC" then some (1 / 60000)
  else if code = "ETH" then some (1 / 3000)
  else none

/-- ASCII upper-casing of one character (`str.upper()` on the ASCII
currency codes the system deals in). -/
def charUpper (c : Char) : Char :=
  if c.isLower then Char.ofNat (c.toNat - 32) else c

/-- `str.upper()` on an ASCII string: upper-case every character. -/
def strUpper (s : String) : String := ⟨s.data.map charUpper⟩

/-- `convert(amount_eur, to_currency)` of `main.py`: look the target code
up case-insensitively (`to_currency.upper()`); an unknown code returns
the amount unchanged. -/
def convert (amount_eur : ℚ) (to_currency : String) : ℚ :=
  match RATES (strUpper to_currency) with
  | none => amount_eur
  | some rate => amount_eur * rate

/-- Python truthiness of a holding's `catalog_id`: `None` and the empty
string are falsy (`if not catalog_id: continue`); the truthy reference,
when there is one. -/
def refOf (h : Holding) : Option String :=
  match h.catalog_id with
  | none => none
  | some cid => if cid = "" then none else some cid

/-- Descending order on snapshots by stored timestamp, as produced by
`.sort("taken_at", -1)`.  The model's sort is stable, which is the only
tie behaviour any verified property relies on. -/
def snapDesc (s t : Snapshot) : Prop := sortKey t.taken_at ≤ sortKey s.taken_at

instance : DecidableRel snapDesc := fun s t => inferInstanceAs (Decidable (_ ≤ _))

instance : IsTotal Snapshot snapDesc :=
  ⟨fun s t => (le_total (sortKey t.taken_at) (sortKey s.taken_at)).imp id id⟩

instance : IsTrans Snapshot snapDesc :=
  ⟨fun _ _ _ h h' => le_trans h' h⟩

/-- The query `db["pricesnapshot"].find({"catalog_id": cid, "currency": c})
.sort("taken_at", -1)`: all snapshots for the given catalog reference and
currency, newest first. -/
def snapsFor (db : List Snapshot) (cid c : String) : List Snapshot :=
  List.insertionSort snapDesc (db.filter fun s => s.catalog_id == cid && s.currency == c)

/-- The price cache entry `latest_by_catalog[cid]` of `portfolio_summary`:
the price of the newest snapshot for `(cid, c)`, or `0.0` when no snapshot
exists (`float(snap[0]["price"]) if snap else 0.0`). -/
def latestPrice (db : List Snapshot) (cid c : String) : ℚ :=
  match snapsFor db cid c with
  | [] => 0
  | s :: _ => s.price

/-- The `change24[cid]` entry of `portfolio_summary`: with the two newest
snapshots `snaps[0]`, `snaps[1]` (descending), if both exist and
`snaps[1]["price"]` is truthy, `(cur - prev) / prev`; otherwise `0.0`. -/
def change24For (db : List Snapshot) (cid c : String) : ℚ :=
  match snapsFor db cid c with
  | cur :: prev :: _ =>
      if prev.price ≠ 0 then (cur.price - prev.price) / prev.price else 0
  | _ => 0

/-- One entry of the `items_summary` list built by `portfolio_summary`:
the holding document together with its computed figures. -/
structure ItemSummary where
  item : Holding
  current_price : ℚ
  current_value : ℚ
  unrealized : ℚ
  change24 : ℚ
deriving DecidableEq, Repr

/-- The `items_summary` entry `portfolio_summary` appends for one holding:
`cost = purchase_price * qty`, `current_price` from the price cache (`0.0`
when the holding has no truthy `catalog_id`), `current_value = price * qty`,
`unrealized = current_value - cost`, and the cached 24h change ratio
(`change24.get(catalog_id, 0.0)`). -/
def itemOf (db : List Snapshot) (c : String) (h : Holding) : ItemSummary :=
  let cost : ℚ := h.purchase_price * h.quantity
  let current_price : ℚ :=
    match refOf h with
    | none => 0
    | some cid => latestPrice db cid c
  let current_val : ℚ := current_price * h.quantity
  { item := h
    current_price := current_price
    current_value := current_val
    unrealized := current_val - cost
    change24 :=
      match refOf h with
      | none => 0
      | some cid => change24For db cid c }

/-- The per-holding output line as the spec describes it (Portfolio
Aggregator step 4: per-holding figures "are also expressed in
`outputCurrency` (convert each before returning)", just as the three
totals are): `itemOf` with every monetary figure passed through the
Currency Converter.  Stated from the spec's words, to be compared with
the source's `itemOf`. -/
def itemOfSpecClaim (db : List Snapshot) (c : String) (h : Holding) : ItemSummary :=
  let raw := itemOf db c h
  { raw with
    current_price := convert raw.current_price c
    current_value := convert raw.current_value c
    unrealized := convert raw.unrealized c }

/-- The contribution of one holding to `total_cost_eur`:
`cost if h["currency"] == "EUR" else cost / RATES.get(h["currency"], 1.0)`
with `cost = purchase_price * quantity`.  Note the lookup is by the raw
stored code, not uppercased. -/
def costContribution (h : Holding) : ℚ :=
  let cost : ℚ := h.purchase_price * h.quantity
  if h.currency = "EUR" then cost else cost / (RATES h.currency).getD 1

/-- Sort key of the biggest-movers ranking:
`abs(x["current_value"] * x["change24"])`. -/
def moverKey (x : ItemSummary) : ℚ := |x.current_value * x.change24|

/-- Descending order on item summaries by `moverKey`, as produced by
`sorted(items_summary, key=..., reverse=True)` (a stable sort). -/
def moverDesc (x y : ItemSummary) : Prop := moverKey y ≤ moverKey x

instance : DecidableRel moverDesc := fun x y => inferInstanceAs (Decidable (_ ≤ _))

instance : IsTotal ItemSummary moverDesc :=
  ⟨fun x y => (le_total (moverKey y) (moverKey x)).imp id id⟩

instance : IsTrans ItemSummary moverDesc :=
  ⟨fun _ _ _ h h' => le_trans h' h⟩

/-- The response of `GET /portfolio/summary`. -/
structure Summary where
  currency : String
  total_cost : ℚ
  total_value : ℚ
  unrealized_pnl : ℚ
  items : List ItemSummary
  biggest_movers : List ItemSummary
deriving DecidableEq, Repr

/-- `portfolio_summary(currency)` of `main.py`, as a function of the
stored snapshots `db` and holdings `holdings`.  The inline dictionaries
`latest_by_catalog` and `change24` are per-request memoizations of the
pure lookups `latestPrice` and `change24For`; the running sums
`total_cost_eur` / `total_value_eur` become list sums. -/
def portfolio_summary (db : List Snapshot) (holdings : List Holding)
    (currency : String) : Summary :=
  let items_summary := holdings.map (itemOf db currency)
  let total_cost_eur : ℚ := (holdings.map costContribution).sum
  let total_value_eur : ℚ := (items_summary.map (·.current_value)).sum
  let movers := (List.insertionSort moverDesc items_summary).take 5
  { currency := currency
    total_cost := convert total_cost_eur currency
    total_value := convert total_value_eur currency
    unrealized_pnl := convert (total_value_eur - total_cost_eur) currency
    items := items_summary
    biggest_movers := movers }

/-- UTC calendar day of an epoch instant, as an integer day number
(`datetime.utcfromtimestamp(epoch).strftime("%Y-%m-%d")` identifies the
day; Unix days are exactly 86400 seconds, so the day is the floor of
`epoch / 86400`; lexicographic order on the date strings is the order on
these day numbers). -/
def dayOf (epoch : ℤ) : ℤ := Int.ediv epoch 86400

/-- The bucketing pass of `trends_timeseries`: for each snapshot in the
requested currency whose `taken_at` yields an epoch (datetime, or a
string parsing as ISO — otherwise `continue`) at or after
`since = now - days * 86400`, the triple (day, catalog_id, price).
`day_map.setdefault(day, {})[catalog_id] = price` is last-write-wins
per `(day, catalog_id)`, which `priceFor` reads back. -/
def bucketEntries (now : ℤ) (days : ℤ) (currency : String)
    (snaps : List Snapshot) : List (ℤ × String × ℚ) :=
  let since := now - days * 86400
  snaps.filterMap fun s =>
    if s.currency == currency then
      match epochOf s.taken_at with
      | none => none
      | some epoch =>
          if epoch < since then none else some (dayOf epoch, s.catalog_id, s.price)
    else none

/-- `day_map[day].get(catalog_id)`: the last recorded price for the pair,
if any (dict writes are last-write-wins). -/
def priceFor (entries : List (ℤ × String × ℚ)) (day : ℤ) (cid : String) :
    Option ℚ :=
  ((entries.filter fun e => e.1 == day && e.2.1 == cid).map (·.2.2)).getLast?

/-- `sorted(day_map.keys())`: the distinct bucketed days in ascending
order. -/
def sortedDays (entries : List (ℤ × String × ℚ)) : List ℤ :=
  List.insertionSort (· ≤ ·) (entries.map (·.1)).dedup

/-- The inner accumulation of `trends_timeseries` for one day: every
holding with a truthy `catalog_id` and a price recorded for that day
contributes `price * quantity`; others contribute nothing. -/
def dayValue (entries : List (ℤ × String × ℚ)) (holdings : List Holding)
    (day : ℤ) : ℚ :=
  (holdings.map fun h =>
    match refOf h with
    | none => 0
    | some cid =>
        match priceFor entries day cid with
        | none => 0
        | some price => price * (h.quantity : ℚ)).sum

/-- `trends_timeseries(currency, days)` of `main.py`, as a function of
`now` (the request instant), the stored snapshots and the holdings: the
`series` list of `(date, value)` pairs, values converted to the
requested currency. -/
def trends_timeseries (now : ℤ) (days : ℤ) (currency : String)
    (snaps : List Snapshot) (holdings : List Holding) : List (ℤ × ℚ) :=
  let entries := bucketEntries now days currency snaps
  (sortedDays entries).map fun day =>
    (day, convert (dayValue entries holdings day) currency)

/-! ### The fixed scenario of spec §8: one holding, quantity 3, purchase
price 10 EUR each, one snapshot at price 15 recorded in EUR. -/

/-- The stored snapshots of the scenario: a single snapshot for catalog
reference `"cat1"`, recorded in EUR, price `15`. -/
def scenarioDb : List Snapshot := [⟨"cat1", "EUR", 15, .dt 1000⟩]

/-- The holdings of the scenario: one holding of `"cat1"`, quantity `3`,
purchase price `10` EUR each. -/
def scenarioHoldings : List Holding := [⟨some "cat1", 3, 10, "EUR"⟩]

end TCG

namespace TCG

/-- **C8**: for every amount and every currency code that is absent
(after upper-casing) from the static rate table, `convert` returns the
amount unchanged. -/
theorem convert_unknown_code (x : ℚ) (code : String)
    (h : RATES (strUpper code) = none) : convert x code = x := by
  simp [convert, h]

/-- Witness for **C8** at the concrete code `"xTz"`. -/
theorem convert_unknown_code_witness :
    RATES (strUpper "xTz") = none ∧ convert 42 "xTz" = 42 :=
  ⟨by decide, convert_unknown_code 42 "xTz" (by decide)⟩

/-- **C1**: for every holding line of the portfolio summary carrying a
catalog reference, the attached 24h change ratio is
`(latest.price - previous.price) / previous.price` whenever the ordered
snapshot history for that reference and currency has at least two
entries and the previous (second-newest) one has non-zero price, and is
`0` whenever fewer than two snapshots exist or that price is `0`. -/
theorem change24_attached (db : List Snapshot) (holdings : List Holding)
    (currency : String) (it : ItemSummary)
    (hmem : it ∈ (portfolio_summary db holdings currency).items)
    (cid : String) (hcid : refOf it.item = some cid) :
    (∀ cur prev rest, snapsFor db cid currency = cur :: prev :: rest →
        (prev.price ≠ 0 → it.change24 = (cur.price - prev.price) / prev.price) ∧
        (prev.price = 0 → it.change24 = 0)) ∧
    ((snapsFor db cid currency).length < 2 → it.change24 = 0) := by
  obtain ⟨h, -, rfl⟩ := List.mem_map.mp hmem
  have hh : refOf h = some cid := hcid
  have hch : (itemOf db currency h).change24 = change24For db cid currency := by
    simp [itemOf, hh]
  constructor
  · intro cur prev rest hsn
    rw [hch]
    unfold change24For
    rw [hsn]
    exact ⟨fun hp => by simp [hp], fun hp => by simp [hp]⟩
  · intro hlen
    rw [hch]
    unfold change24For
    cases hsn : snapsFor db cid currency with
    | nil => rfl
    | cons a t =>
      cases t with
      | nil => rfl
      | cons b r => exact absurd hlen (by rw [hsn]; simp)

/-- Witness for **C1**: a reference with snapshots at prices 10 (older)
and 15 (newer); the attached ratio is `(15 - 10) / 10`. -/
theorem change24_attached_witness :
    (itemOf [⟨"c1", "EUR", 10, .dt 100⟩, ⟨"c1", "EUR", 15, .dt 200⟩] "EUR"
        ⟨some "c1", 1, 0, "EUR"⟩).change24 = (15 - 10) / 10 := by
  have hsn : snapsFor [⟨"c1", "EUR", 10, .dt 100⟩, ⟨"c1", "EUR", 15, .dt 200⟩] "c1" "EUR"
      = [⟨"c1", "EUR", 15, .dt 200⟩, ⟨"c1", "EUR", 10, .dt 100⟩] := by
    simp [snapsFor, snapDesc, sortKey, List.orderedInsert]
  have hmain := change24_attached [⟨"c1", "EUR", 10, .dt 100⟩, ⟨"c1", "EUR", 15, .dt 200⟩]
    [⟨some "c1", 1, 0, "EUR"⟩] "EUR"
    (itemOf [⟨"c1", "EUR", 10, .dt 100⟩, ⟨"c1", "EUR", 15, .dt 200⟩] "EUR" ⟨some "c1", 1, 0, "EUR"⟩)
    (by simp [portfolio_summary]) "c1" rfl
  have hres := (hmain.1 _ _ _ hsn).1 (by norm_num)
  simpa using hres

/-- **C2, counterexample**: in the fixed scenario (one holding, quantity
3, purchase price 10 EUR each, one snapshot at price 15 recorded in
EUR), the USD run does *not* scale all three totals by `1.08`: price
snapshots are looked up filtered by the requested currency, so the USD
run finds no snapshot and reports total value `0` rather than
`1.08 × 45`. -/
theorem usd_scaling_counterexample :
    ¬ ((portfolio_summary scenarioDb scenarioHoldings "USD").total_cost
          = 108 / 100 * (portfolio_summary scenarioDb scenarioHoldings "EUR").total_cost ∧
       (portfolio_summary scenarioDb scenarioHoldings "USD").total_value
          = 108 / 100 * (portfolio_summary scenarioDb scenarioHoldings "EUR").total_value ∧
       (portfolio_summary scenarioDb scenarioHoldings "USD").unrealized_pnl
          = 108 / 100 * (portfolio_summary scenarioDb scenarioHoldings "EUR").unrealized_pnl) := by
  intro hcl
  have hv := hcl.2.1
  simp [portfolio_summary, scenarioDb, scenarioHoldings, itemOf, refOf, latestPrice,
    snapsFor, snapDesc, convert, strUpper, charUpper, RATES, costContribution,
    change24For] at hv

/-- **C2, amended**: in the fixed scenario the EUR run yields cost 30,
value 45, unrealized 15; the USD run multiplies only the total cost by
1.08 (`32.4`), while — the only snapshot being recorded in EUR and
snapshot lookups being filtered by the requested currency — its total
value is 0 and its unrealized P/L is `-32.4`. -/
theorem usd_scaling_amended :
    (portfolio_summary scenarioDb scenarioHoldings "EUR").total_cost = 30 ∧
    (portfolio_summary scenarioDb scenarioHoldings "EUR").total_value = 45 ∧
    (portfolio_summary scenarioDb scenarioHoldings "EUR").unrealized_pnl = 15 ∧
    (portfolio_summary scenarioDb scenarioHoldings "USD").total_cost = 108 / 100 * 30 ∧
    (portfolio_summary scenarioDb scenarioHoldings "USD").total_value = 0 ∧
    (portfolio_summary scenarioDb scenarioHoldings "USD").unrealized_pnl = -(108 / 100 * 30) := by
  refine ⟨?_, ?_, ?_, ?_, ?_, ?_⟩ <;>
    simp [portfolio_summary, scenarioDb, scenarioHoldings, itemOf, refOf, latestPrice,
      snapsFor, snapDesc, convert, strUpper, charUpper, RATES, costContribution,
      change24For] <;>
    try norm_num

/-- **C3**: every holding with no (truthy) catalog reference is reported
with current value `0` and unrealized P/L equal to the negation of its
cost, purchase price times quantity. -/
theorem no_ref_valuation (db : List Snapshot) (holdings : List Holding)
    (currency : String) (it : ItemSummary)
    (hmem : it ∈ (portfolio_summary db holdings currency).items)
    (href : refOf it.item = none) :
    it.current_value = 0 ∧
    it.unrealized = -(it.item.purchase_price * it.item.quantity) := by
  obtain ⟨h, -, rfl⟩ := List.mem_map.mp hmem
  have hh : refOf h = none := href
  constructor <;> simp [itemOf, hh]

/-- Witness for **C3**: a holding with `catalog_id = None`, quantity 2,
purchase price 7. -/
theorem no_ref_valuation_witness :
    (itemOf [] "EUR" ⟨none, 2, 7, "EUR"⟩).current_value = 0 ∧
    (itemOf [] "EUR" ⟨none, 2, 7, "EUR"⟩).unrealized = -(7 * 2) := by
  have hmain := no_ref_valuation [] [⟨none, 2, 7, "EUR"⟩] "EUR"
    (itemOf [] "EUR" ⟨none, 2, 7, "EUR"⟩) (by simp [portfolio_summary]) rfl
  exact ⟨hmain.1, by rw [hmain.2]; norm_num [itemOf]⟩

/-- **C4**: a holding's contribution to the total cost is purchase price
times quantity when its purchase currency is the literal reference code
`"EUR"`; otherwise that product divided by the currency's rate from the
rate table, with a default divisor of `1` (no change) when the currency
is absent from the table.  The summary's total cost is the converted sum
of these contributions. -/
theorem cost_basis_conversion (db : List Snapshot) (holdings : List Holding)
    (currency : String) (h : Holding) :
    (portfolio_summary db holdings currency).total_cost
        = convert ((holdings.map costContribution).sum) currency ∧
    (h.currency = "EUR" → costContribution h = h.purchase_price * h.quantity) ∧
    (∀ r : ℚ, h.currency ≠ "EUR" → RATES h.currency = some r →
        costContribution h = h.purchase_price * h.quantity / r) ∧
    (h.currency ≠ "EUR" → RATES h.currency = none →
        costContribution h = h.purchase_price * h.quantity / 1) := by
  refine ⟨rfl, fun heur => by simp [costContribution, heur],
    fun r hne hr => by simp [costContribution, hne, hr],
    fun hne hnone => by simp [costContribution, hne, hnone]⟩

/-- Witness for **C4**: a GBP-denominated holding (rate `0.86`) and a
holding in a currency absent from the table. -/
theorem cost_basis_conversion_witness :
    (portfolio_summary [] [] "EUR").total_cost
        = convert (([] : List Holding).map costContribution).sum "EUR" ∧
    costContribution ⟨none, 2, 10, "GBP"⟩ = 10 * 2 / (86 / 100) ∧
    costContribution ⟨none, 2, 10, "XYZ"⟩ = 10 * 2 / 1 := by
  refine ⟨(cost_basis_conversion [] [] "EUR" ⟨none, 2, 10, "GBP"⟩).1, ?_, ?_⟩
  · have hmain := (cost_basis_conversion [] [] "EUR" ⟨none, 2, 10, "GBP"⟩).2.2.1
      (86 / 100) (by decide) rfl
    simpa using hmain
  · have hmain := (cost_basis_conversion [] [] "EUR" ⟨none, 2, 10, "XYZ"⟩).2.2.2
      (by decide) rfl
    simpa using hmain

/-- **C5, counterexample**: per-holding figures are *not* converted via
the Currency Converter before being returned.  With one USD-recorded
snapshot at price 15 and the output currency USD, the returned
per-holding line differs from the spec's converted line (current value
`45` versus `45 × 1.08`). -/
theorem items_converted_counterexample :
    (portfolio_summary [⟨"c1", "USD", 15, .dt 0⟩] [⟨some "c1", 3, 10, "USD"⟩] "USD").items
      ≠ [(⟨some "c1", 3, 10, "USD"⟩ : Holding)].map
          (itemOfSpecClaim [⟨"c1", "USD", 15, .dt 0⟩] "USD") := by
  intro hcl
  simp [portfolio_summary, itemOf, itemOfSpecClaim, refOf, latestPrice, snapsFor,
    snapDesc, convert, strUpper, charUpper, RATES] at hcl
  norm_num at hcl

/-- **C5, amended**: the per-holding figures of the summary are returned
without any Currency-Converter application: current value is the raw
cached snapshot price (from the snapshot set filtered to the requested
currency) times quantity, unrealized P/L is that value minus the raw
cost; only the three totals pass through `convert`. -/
theorem items_unconverted (db : List Snapshot) (holdings : List Holding)
    (currency : String) (it : ItemSummary)
    (hmem : it ∈ (portfolio_summary db holdings currency).items) :
    it.current_value = it.current_price * it.item.quantity ∧
    it.unrealized = it.current_value - it.item.purchase_price * it.item.quantity ∧
    (∀ cid, refOf it.item = some cid → it.current_price = latestPrice db cid currency) ∧
    (portfolio_summary db holdings currency).total_value
      = convert (((portfolio_summary db holdings currency).items.map
          (·.current_value)).sum) currency := by
  obtain ⟨h, -, rfl⟩ := List.mem_map.mp hmem
  refine ⟨by simp [itemOf], by simp [itemOf], fun cid hcid => ?_, rfl⟩
  have hh : refOf h = some cid := hcid
  simp [itemOf, hh]

/-- Witness for **C5 (amended)**: the holding line of the USD scenario
satisfies the unconverted-figure equations. -/
theorem items_unconverted_witness :
    (itemOf [⟨"c1", "USD", 15, .dt 0⟩] "USD" ⟨some "c1", 3, 10, "USD"⟩).current_value
        = (itemOf [⟨"c1", "USD", 15, .dt 0⟩] "USD" ⟨some "c1", 3, 10, "USD"⟩).current_price * 3 ∧
    (itemOf [⟨"c1", "USD", 15, .dt 0⟩] "USD" ⟨some "c1", 3, 10, "USD"⟩).current_price
        = latestPrice [⟨"c1", "USD", 15, .dt 0⟩] "c1" "USD" := by
  have hmain := items_unconverted [⟨"c1", "USD", 15, .dt 0⟩] [⟨some "c1", 3, 10, "USD"⟩]
    "USD" (itemOf [⟨"c1", "USD", 15, .dt 0⟩] "USD" ⟨some "c1", 3, 10, "USD"⟩)
    (by simp [portfolio_summary])
  exact ⟨by simpa using hmain.1, by simpa using hmain.2.2.1 "c1" rfl⟩

/-- `orderedInsert` for the movers ranking places the incoming element
in front of every element of equal mover key (its relation is reflexive
on equal keys), so filtering by one key value commutes with the
insertion.  This is the stability of the ranking. -/
theorem filter_orderedInsert_moverKey (k : ℚ) (x : ItemSummary) :
    ∀ l : List ItemSummary,
      (List.orderedInsert moverDesc x l).filter (fun y => moverKey y == k)
        = if moverKey x == k then x :: l.filter (fun y => moverKey y == k)
          else l.filter (fun y => moverKey y == k)
  | [] => by simp [List.filter_cons, beq_iff_eq]
  | y :: ys => by
    by_cases hxy : moverDesc x y
    · by_cases hxk : moverKey x = k <;>
        simp [List.orderedInsert, hxy, List.filter_cons, beq_iff_eq, hxk]
    · have hlt : moverKey x < moverKey y := lt_of_not_le hxy
      have ih := filter_orderedInsert_moverKey k x ys
      by_cases hyk : moverKey y = k
      · have hxk : ¬ moverKey x = k := fun hx => absurd (hx.trans hyk.symm) (ne_of_lt hlt)
        simp [List.orderedInsert, hxy, List.filter_cons, beq_iff_eq, hyk, hxk, ih]
      · by_cases hxk : moverKey x = k <;>
          simp [List.orderedInsert, hxy, List.filter_cons, beq_iff_eq, hyk, hxk, ih]

/-- Filtering by one mover-key value commutes with the whole stable
sort: elements of equal key keep their original relative order. -/
theorem filter_insertionSort_moverKey (k : ℚ) :
    ∀ l : List ItemSummary,
      (List.insertionSort moverDesc l).filter (fun y => moverKey y == k)
        = l.filter (fun y => moverKey y == k)
  | [] => rfl
  | x :: xs => by
    have ih := filter_insertionSort_moverKey k xs
    by_cases hxk : moverKey x = k <;>
      simp [List.insertionSort, filter_orderedInsert_moverKey, hxk, List.filter_cons,
        beq_iff_eq, ih]

/-- **C6**: the biggest-movers list has length at most 5, is sorted
descending by `|current_value * change24|`, every entry is an entry of
the full items list, and it is the 5-prefix of a stable descending
reordering of the items list (equal keys keep the original holding
order, witnessed by filter invariance for every key value). -/
theorem biggest_movers_spec (db : List Snapshot) (holdings : List Holding)
    (currency : String) :
    (portfolio_summary db holdings currency).biggest_movers.length ≤ 5 ∧
    List.Sorted moverDesc (portfolio_summary db holdings currency).biggest_movers ∧
    (∀ x ∈ (portfolio_summary db holdings currency).biggest_movers,
        x ∈ (portfolio_summary db holdings currency).items) ∧
    ∃ full : List ItemSummary,
      (portfolio_summary db holdings currency).biggest_movers = full.take 5 ∧
      full.Perm (portfolio_summary db holdings currency).items ∧
      List.Sorted moverDesc full ∧
      ∀ k : ℚ, full.filter (fun y => moverKey y == k)
          = (portfolio_summary db holdings currency).items.filter
              (fun y => moverKey y == k) := by
  refine ⟨?_, ?_, ?_,
    List.insertionSort moverDesc (portfolio_summary db holdings currency).items,
    rfl, List.perm_insertionSort moverDesc _, List.sorted_insertionSort moverDesc _,
    fun k => filter_insertionSort_moverKey k _⟩
  · exact List.length_take_le 5 _
  · exact List.Pairwise.sublist (List.take_sublist 5 _)
      (List.sorted_insertionSort moverDesc _)
  · intro x hx
    exact (List.perm_insertionSort moverDesc _).subset (List.take_subset 5 _ hx)

/-- Witness for **C6** at the fixed scenario (its internal quantifiers
instantiated at a concrete input). -/
theorem biggest_movers_spec_witness :
    (portfolio_summary scenarioDb scenarioHoldings "EUR").biggest_movers.length ≤ 5 ∧
    List.Sorted moverDesc (portfolio_summary scenarioDb scenarioHoldings "EUR").biggest_movers :=
  ⟨(biggest_movers_spec scenarioDb scenarioHoldings "EUR").1,
   (biggest_movers_spec scenarioDb scenarioHoldings "EUR").2.1⟩

/-- Day numbers are monotone in the instant. -/
theorem dayOf_mono {a b : ℤ} (h : a ≤ b) : dayOf a ≤ dayOf b :=
  Int.ediv_le_ediv (by norm_num) h

/-- Going back exactly `days * 86400` seconds goes back exactly `days`
calendar days (Unix time has no leap seconds). -/
theorem dayOf_sub_days (now days : ℤ) :
    dayOf (now - days * 86400) = dayOf now - days := by
  have h : now - days * 86400 = now + (-days) * 86400 := by ring
  show (now - days * 86400) / 86400 = now / 86400 - days
  rw [h, Int.add_mul_ediv_right _ _ (by norm_num : (86400 : ℤ) ≠ 0)]
  ring

/-- Every day bucketed by `trends_timeseries` is at least
`today - lookbackDays`. -/
theorem bucketEntries_day_lower_bound (now days : ℤ) (currency : String)
    (snaps : List Snapshot) (e : ℤ × String × ℚ)
    (he : e ∈ bucketEntries now days currency snaps) :
    dayOf now - days ≤ e.1 := by
  obtain ⟨s, -, hf⟩ := List.mem_filterMap.mp he
  by_cases hc : s.currency == currency
  · rw [if_pos hc] at hf
    cases hep : epochOf s.taken_at with
    | none => rw [hep] at hf; exact absurd hf (by simp)
    | some epoch =>
      rw [hep] at hf
      dsimp only at hf
      by_cases hlt : epoch < now - days * 86400
      · rw [if_pos hlt] at hf; exact absurd hf (by simp)
      · rw [if_neg hlt] at hf
        have h1 : dayOf (now - days * 86400) ≤ dayOf epoch := dayOf_mono (le_of_not_lt hlt)
        have h2 : e.1 = dayOf epoch := by
          cases hf; rfl
        rw [h2, ← dayOf_sub_days now days]
        exact h1
  · rw [if_neg hc] at hf; exact absurd hf (by simp)

/-- **C7**: the dates of the daily series are strictly increasing, and
every date is at least `today - lookbackDays` (in day numbers:
`dayOf now - days`). -/
theorem daily_series_dates (now days : ℤ) (currency : String)
    (snaps : List Snapshot) (holdings : List Holding) :
    List.Pairwise (· < ·)
      ((trends_timeseries now days currency snaps holdings).map Prod.fst) ∧
    ∀ p ∈ trends_timeseries now days currency snaps holdings,
      dayOf now - days ≤ p.1 := by
  constructor
  · unfold trends_timeseries
    rw [List.map_map, List.pairwise_map]
    have hsorted : List.Sorted (· ≤ ·)
        (sortedDays (bucketEntries now days currency snaps)) :=
      List.sorted_insertionSort _ _
    have hnodup : (sortedDays (bucketEntries now days currency snaps)).Nodup :=
      ((List.perm_insertionSort (· ≤ ·) _).symm).nodup (List.nodup_dedup _)
    exact hsorted.lt_of_le hnodup
  · intro p hp
    obtain ⟨day, hday, hpeq⟩ := List.mem_map.mp hp
    have hday' : day ∈ (bucketEntries now days currency snaps).map (·.1) :=
      List.dedup_subset _ ((List.perm_insertionSort (· ≤ ·) _).subset hday)
    obtain ⟨e, he, rfl⟩ := List.mem_map.mp hday'
    have hbound := bucketEntries_day_lower_bound now days currency snaps e he
    rw [← hpeq]
    exact hbound

/-- Witness for **C7** at the fixed scenario: the series for
`now = 200000`, lookback 30 days has its single date `0` within bound
and strictly increasing dates. -/
theorem daily_series_dates_witness :
    List.Pairwise (· < ·)
      ((trends_timeseries 200000 30 "EUR" scenarioDb scenarioHoldings).map Prod.fst) ∧
    ∀ p ∈ trends_timeseries 200000 30 "EUR" scenarioDb scenarioHoldings,
      dayOf 200000 - 30 ≤ p.1 :=
  daily_series_dates 200000 30 "EUR" scenarioDb scenarioHoldings

/-- **C10**: a snapshot whose `taken_at` is neither a datetime nor a
string that parses as an ISO timestamp is silently excluded from the
day bucketing, and the daily series is exactly the one computed without
that snapshot — all other snapshots are unaffected. -/
theorem bad_timestamp_ignored (now days : ℤ) (currency : String)
    (pre post : List Snapshot) (s : Snapshot) (holdings : List Holding)
    (hbad : s.taken_at = .bad) :
    bucketEntries now days currency (pre ++ s :: post)
        = bucketEntries now days currency (pre ++ post) ∧
    trends_timeseries now days currency (pre ++ s :: post) holdings
        = trends_timeseries now days currency (pre ++ post) holdings := by
  have hb : bucketEntries now days currency (pre ++ s :: post)
      = bucketEntries now days currency (pre ++ post) := by
    unfold bucketEntries
    simp [List.filterMap_append, List.filterMap_cons, hbad, epochOf]
  exact ⟨hb, by unfold trends_timeseries; rw [hb]⟩

/-- Witness for **C10**: inserting a bad-timestamp snapshot into the
scenario's snapshot list leaves the daily series unchanged. -/
theorem bad_timestamp_ignored_witness :
    trends_timeseries 200000 30 "EUR" ([] ++ ⟨"cat1", "EUR", 99, .bad⟩ :: scenarioDb)
        scenarioHoldings
      = trends_timeseries 200000 30 "EUR" ([] ++ scenarioDb) scenarioHoldings :=
  (bad_timestamp_ignored 200000 30 "EUR" [] scenarioDb
    ⟨"cat1", "EUR", 99, .bad⟩ scenarioHoldings rfl).2

/-- **C9**: for every fixed currency code, `convert` is additive:
`convert (a + b) c = convert a c + convert b c`. -/
theorem convert_additive (a b : ℚ) (c : String) :
    convert (a + b) c = convert a c + convert b c := by
  unfold convert
  cases RATES (strUpper c) <;> simp [add_mul]

end TCG
